import Mathlib

/-!
Verification of the librsync delta-decode state machine (src/patch.c) and
the generic open-addressing hash table (src/src/hashtable.h).

The state functions of patch.c are embedded directly from the source.
Collaborator primitives that live outside src/ (the scoop/tube cursor
abstraction of stream.c, the big-endian decoders of netint.c, the command
table of prototab.c, the job driver of job.c, and hashtable.c) are
modelled from the spec; each such definition carries a doc comment that
starts with the words Modelled from the spec.
-/

namespace Librsync

/-- Result statuses returned by a step of the machine.  The terminal error
statuses follow the error taxonomy of the spec; blocked_in and blocked_out
are the recoverable suspension signals; internalError models a C assert
failure. -/
inductive RsResult where
  | done
  | running
  | blocked_in
  | blocked_out
  | badMagic
  | corrupt
  | paramOverflow
  | basisReadFailed
  | internalError
deriving DecidableEq, Repr

/-- Command kinds of the Command Table.  Modelled from the spec (command.h
is not under src/): kind is one of LITERAL, COPY, END, RESERVED. -/
inductive RsOpKind where
  | literal
  | copy
  | end_
  | reserved
deriving DecidableEq, Repr

/-- Command descriptor: immutable tuple (kind, len_1, len_2, immediate)
keyed by opcode value. -/
structure RsCommand where
  kind : RsOpKind
  len_1 : Nat
  len_2 : Nat
  immediate : Nat
deriving DecidableEq, Repr

/-- Modelled from the spec: the static Command Table rs_prototab
(prototab.c is not under src/).  Opcode 0 is END; opcodes 1..64 are
LITERAL commands whose immediate value is the opcode itself; opcodes
65..68 are LITERAL commands with an explicit 1/2/4/8-byte length
parameter; opcodes 69..84 are COPY commands with two parameters whose
byte widths range over the pairs from the set 1,2,4,8; every other opcode
is RESERVED, so that the 256-entry opcode space is dense and reserved
opcodes never map to a valid kind. -/
def rs_prototab (op : Nat) : RsCommand :=
  if op = 0 then ⟨.end_, 0, 0, 0⟩
  else if op ≤ 64 then ⟨.literal, 0, 0, op⟩
  else if op = 65 then ⟨.literal, 1, 0, 0⟩
  else if op = 66 then ⟨.literal, 2, 0, 0⟩
  else if op = 67 then ⟨.literal, 4, 0, 0⟩
  else if op = 68 then ⟨.literal, 8, 0, 0⟩
  else if op ≤ 84 then
    let widths := fun k => if k = 0 then 1 else if k = 1 then 2 else if k = 2 then 4 else 8
    ⟨.copy, widths ((op - 69) / 4), widths ((op - 69) % 4), 0⟩
  else ⟨.reserved, 0, 0, 0⟩

/-- Modelled from the spec: the fixed 4-byte big-endian delta-format magic
constant RS_DELTA_MAGIC (protocol.h is not under src/). -/
def RS_DELTA_MAGIC : Nat := 0x72730236

/-- Big-endian decoding of a byte list into an unsigned integer. -/
def be (bs : List Nat) : Nat := bs.foldl (fun a b => a * 256 + b) 0

/-- The state-function tags of the patch machine: one per static state
function of patch.c.  The spec calls these Header, Command-Byte,
Parameter-Read, Dispatch, Literal-Copy and Basis-Copy. -/
inductive Statefn where
  | header
  | cmdbyte
  | params
  | run
  | literal
  | copy
deriving DecidableEq, Repr

/-- The Job for one in-flight decode (the fields of rs_job_t used by
patch.c): the current state tag, the last opcode byte, the selected
command descriptor, the two decoded parameters, the cumulative literal
statistics, the pending tube-copy length (the byte counter that tracks
remaining literal length across resumptions), the list of bytes fed into
the MD4 output-checksum accumulator, and the log of basis-read callback
invocations as (offset, length) pairs. -/
structure RsJob where
  statefn : Statefn
  op : Nat
  cmd : RsCommand
  param1 : Nat
  param2 : Nat
  statsLitCmds : Nat
  statsLitBytes : Nat
  tubeCopyLen : Nat
  md4Fed : List Nat
  basisReads : List (Nat × Nat)
deriving DecidableEq, Repr

/-- Embeds rs_patch_begin (patch.c lines 230-241): a fresh zeroed Job
whose state function is rs_patch_s_header; rs_mdfour_begin initializes the
output checksum accumulator to having been fed nothing. -/
def rs_patch_begin : RsJob :=
  { statefn := .header, op := 0, cmd := ⟨.reserved, 0, 0, 0⟩, param1 := 0,
    param2 := 0, statsLitCmds := 0, statsLitBytes := 0, tubeCopyLen := 0,
    md4Fed := [], basisReads := [] }

/-- Embeds rs_patch_s_header (patch.c lines 184-201).  rs_suck_n4 is
modelled from the spec: read a fixed 4-byte big-endian value, suspending
with blocked_in (consuming nothing) when fewer than 4 bytes are
available.  A value different from RS_DELTA_MAGIC fails with badMagic;
otherwise the machine moves to the Command-Byte state. -/
def rs_patch_s_header (job : RsJob) (input : List Nat) :
    RsResult × RsJob × List Nat :=
  if input.length < 4 then (.blocked_in, job, input)
  else
    let v := be (input.take 4)
    if v ≠ RS_DELTA_MAGIC then (.badMagic, job, input.drop 4)
    else (.running, { job with statefn := .cmdbyte }, input.drop 4)

/-- Embeds rs_patch_s_cmdbyte (patch.c lines 61-82).  rs_suck_byte is
modelled from the spec: read one byte or suspend with blocked_in.  The
descriptor is looked up in rs_prototab; when len_1 is nonzero the next
state is Parameter-Read, otherwise param1 is set to the immediate value
and the next state is Dispatch. -/
def rs_patch_s_cmdbyte (job : RsJob) (input : List Nat) :
    RsResult × RsJob × List Nat :=
  match input with
  | [] => (.blocked_in, job, input)
  | b :: rest =>
    let c := rs_prototab b
    let job := { job with op := b, cmd := c }
    if c.len_1 ≠ 0 then (.running, { job with statefn := .params }, rest)
    else (.running, { job with param1 := c.immediate, statefn := .run }, rest)

/-- Modelled from the spec: rs_suck_netint (netint.c is not under src/)
decodes a len-byte big-endian unsigned integer from the input, suspending
with blocked_in when fewer than len bytes are available, and failing
closed with paramOverflow when the decoded value is not representable in
the native integer range of nb bits, rather than silently truncating. -/
def rs_suck_netint (nb len : Nat) (input : List Nat) :
    RsResult × Nat × List Nat :=
  if input.length < len then (.blocked_in, 0, input)
  else
    let v := be (input.take len)
    if 2 ^ nb ≤ v then (.paramOverflow, 0, input.drop len)
    else (.done, v, input.drop len)

/-- Embeds rs_patch_s_params (patch.c lines 89-114).  rs_scoop_readahead
is modelled from the spec: len_1 + len_2 bytes must be available as one
contiguous span, otherwise the step reports blocked_in having consumed
nothing.  Once available, param1 and (when len_2 is nonzero) param2 are
decoded as big-endian integers and the machine moves to Dispatch.  The
only statuses the C function can return are the readahead status and
RS_RUNNING: it asserts that len is nonzero and, after each rs_suck_netint
call, asserts the result is RS_DONE (the source comment reads that it
should not fail since the readahead already checked), so every firing
assert is modelled as internalError, the C abort, and a rs_suck_netint
failure is never returned as such. -/
def rs_patch_s_params (nb : Nat) (job : RsJob) (input : List Nat) :
    RsResult × RsJob × List Nat :=
  let len := job.cmd.len_1 + job.cmd.len_2
  if len = 0 then (.internalError, job, input)
  else if input.length < len then (.blocked_in, job, input)
  else
    match rs_suck_netint nb job.cmd.len_1 input with
    | (.done, v1, input1) =>
      let job1 := { job with param1 := v1 }
      if job.cmd.len_2 ≠ 0 then
        match rs_suck_netint nb job.cmd.len_2 input1 with
        | (.done, v2, input2) =>
          (.running, { job1 with param2 := v2, statefn := .run }, input2)
        | (_, _, input2) => (.internalError, job1, input2)
      else (.running, { job1 with statefn := .run }, input1)
    | (_, _, input1) => (.internalError, job, input1)

/-- Embeds rs_patch_s_run (patch.c lines 121-142): branch on the kind of
the selected descriptor.  LITERAL and COPY select the next state and keep
running; END is terminal done; any other kind fails with corrupt,
reporting the offending opcode byte as the diagnostic. -/
def rs_patch_s_run (job : RsJob) : RsResult × RsJob × Option Nat :=
  match job.cmd.kind with
  | .literal => (.running, { job with statefn := .literal }, none)
  | .end_ => (.done, job, none)
  | .copy => (.running, { job with statefn := .copy }, none)
  | .reserved => (.corrupt, job, some job.op)

/-- Embeds rs_patch_s_literal (patch.c lines 148-161): param1 is the
literal byte count; the literal-command count and literal-byte total are
updated, rs_tube_copy queues param1 bytes of pass-through copy (the tube
is modelled from the spec, tracked by the tubeCopyLen counter and drained
by the driver), and the state returns to Command-Byte. -/
def rs_patch_s_literal (job : RsJob) : RsResult × RsJob :=
  let len := job.param1
  (.running,
    { job with
      statsLitCmds := job.statsLitCmds + 1,
      statsLitBytes := job.statsLitBytes + len,
      tubeCopyLen := job.tubeCopyLen + len,
      statefn := .cmdbyte })

/-- Embeds rs_patch_s_copy (patch.c lines 165-178): the COPY parameters
are read into locals and traced, but the copy itself is commented out in
the source (the rs_tube_copy call at line 174 is inside a comment and the
function carries a todo to implement COPY commands), so the step only
sets the state back to Command-Byte and keeps running: no output is
queued and the basis-read callback is never invoked. -/
def rs_patch_s_copy (job : RsJob) : RsResult × RsJob :=
  (.running, { job with statefn := .cmdbyte })

/-- Outcome of one driver iteration: the returned status, the mutated
Job, the remaining input, the bytes written to the output cursor by this
iteration, and an optional diagnostic opcode value. -/
structure IterOut where
  result : RsResult
  job : RsJob
  input : List Nat
  out : List Nat
  diag : Option Nat
deriving DecidableEq, Repr

/-- Modelled from the spec: one step of the job driver (job.c and the
tube of stream.c are not under src/).  A pending tube copy is drained
first: as many queued pass-through bytes as the input provides are moved
verbatim from the input cursor to the output cursor, suspending with
blocked_in when the input runs out mid-copy (partial progress already
written is never re-written; the tubeCopyLen counter tracks the remaining
length across resumptions).  The output cursor is modelled with ample
capacity, as the claims under proof never exhaust it.  With the tube
empty, the current state function executes. -/
def rs_job_iter (nb : Nat) (job : RsJob) (input : List Nat) : IterOut :=
  if job.tubeCopyLen ≠ 0 then
    let n := min job.tubeCopyLen input.length
    let job1 := { job with tubeCopyLen := job.tubeCopyLen - n }
    if job1.tubeCopyLen ≠ 0 then
      ⟨.blocked_in, job1, input.drop n, input.take n, none⟩
    else ⟨.running, job1, input.drop n, input.take n, none⟩
  else
    match job.statefn with
    | .header =>
      let (r, j, i) := rs_patch_s_header job input
      ⟨r, j, i, [], none⟩
    | .cmdbyte =>
      let (r, j, i) := rs_patch_s_cmdbyte job input
      ⟨r, j, i, [], none⟩
    | .params =>
      let (r, j, i) := rs_patch_s_params nb job input
      ⟨r, j, i, [], none⟩
    | .run =>
      let (r, j, d) := rs_patch_s_run job
      ⟨r, j, input, [], d⟩
    | .literal =>
      let (r, j) := rs_patch_s_literal job
      ⟨r, j, input, [], none⟩
    | .copy =>
      let (r, j) := rs_patch_s_copy job
      ⟨r, j, input, [], none⟩

/-- Modelled from the spec: the driver loop that cranks rs_job_iter while
the machine reports running, concatenating the output of every
iteration, and stops at the first non-running status (a terminal status
or a suspension).  Fuel bounds the number of iterations; running out of
fuel reports running with the work done so far. -/
def rs_patch_drive (nb : Nat) : Nat → RsJob → List Nat → IterOut
  | 0, job, input => ⟨.running, job, input, [], none⟩
  | fuel + 1, job, input =>
    let s := rs_job_iter nb job input
    match s.result with
    | .running =>
      let d := rs_patch_drive nb fuel s.job s.input
      ⟨d.result, d.job, d.input, s.out ++ d.out, d.diag⟩
    | _ => s

/-- The delta stream of the literal concrete scenario: magic, the
immediate LITERAL opcode for length 3, the three literal bytes of ABC,
and the END opcode. -/
def litScenario : List Nat :=
  [0x72, 0x73, 0x02, 0x36, 3, 0x41, 0x42, 0x43, 0]

/-- The delta stream of the basis-copy concrete scenario: magic, the COPY
opcode with one-byte offset and length parameters, offset 10, length 4,
and the END opcode. -/
def copyScenario : List Nat :=
  [0x72, 0x73, 0x02, 0x36, 69, 10, 4, 0]

/-- Modelled from the spec: the MurmurHash3 32-bit finalization function
applied to the raw hash output to avoid clustering (hashtable.c is not
under src/; the header at src/src/hashtable.h documents its use). -/
def mix32 (h : Nat) : Nat :=
  let h0 := h % 2 ^ 32
  let h1 := Nat.xor h0 (h0 >>> 16) % 2 ^ 32
  let h2 := h1 * 0x85ebca6b % 2 ^ 32
  let h3 := Nat.xor h2 (h2 >>> 13) % 2 ^ 32
  let h4 := h3 * 0xc2b2ae35 % 2 ^ 32
  Nat.xor h4 (h4 >>> 16) % 2 ^ 32

/-- Modelled from the spec: the hashtable structure of src/src/hashtable.h.
The etable and ktable arrays are fused into one slot list holding, for
each occupied slot, the stored mixed hash together with the entry
reference; hash is the user hash function on stored entries, hashm the
same hash applied to match keys (the polymorphic lookup-key reading of
the struct-prefix idiom), and cmp the user comparator between a match
key and a candidate entry. -/
structure Hashtable (μ α : Type) where
  size : Nat
  count : Nat
  hash : α → Nat
  hashm : μ → Nat
  cmp : μ → α → Bool
  slots : List (Option (Nat × α))

/-- Modelled from the spec: hashtable_new allocates a table of size empty
slots with the user hash and comparator functions. -/
def hashtable_new (μ α : Type) (size : Nat) (hash : α → Nat)
    (hashm : μ → Nat) (cmp : μ → α → Bool) : Hashtable μ α :=
  ⟨size, 0, hash, hashm, cmp, List.replicate size none⟩

/-- Modelled from the spec: the quadratic probe sequence
(home + c1 * i + c2 * i ^ 2) mod size; the spec leaves c1 and c2 open and
both are taken to be 1. -/
def probeAt (size home i : Nat) : Nat := (home + i + i * i) % size

/-- Modelled from the spec: the probe loop of hashtable_add, searching
from probe index i with the given fuel (the probe bound derived from the
table size): the entry and its mixed hash are stored at the first empty
slot found, occupied slots are never overwritten, and exhausting the
probe bound reports the table as full by returning none. -/
def addFrom (μ α : Type) (t : Hashtable μ α) (e : α) (mh home : Nat) :
    Nat → Nat → Option (Hashtable μ α)
  | _, 0 => none
  | i, fuel + 1 =>
    match t.slots.getD (probeAt t.size home i) none with
    | none =>
      some { t with slots := t.slots.set (probeAt t.size home i) (some (mh, e)),
                    count := t.count + 1 }
    | some _ => addFrom μ α t e mh home (i + 1) fuel

/-- Modelled from the spec: hashtable_add computes the mixed hash of the
entry with the MurmurHash3 finalizer, takes its home slot modulo the
table size, and probes quadratically for an empty slot, bounding the
probe count by the table size. -/
def hashtable_add (μ α : Type) (t : Hashtable μ α) (e : α) :
    Option (Hashtable μ α) :=
  addFrom μ α t e (mix32 (t.hash e)) (mix32 (t.hash e) % t.size) 0 t.size

/-- Modelled from the spec: the probe loop of hashtable_find.  At each
probed slot, an empty slot stops the search with none (sound because
entries are never removed); at an occupied slot the stored mixed hash is
compared first and the comparator is consulted only on a hash match (the
conjunction is ordered accordingly); the first comparator match is
returned. -/
def findFrom (μ α : Type) (t : Hashtable μ α) (m : μ) (mh home : Nat) :
    Nat → Nat → Option α
  | _, 0 => none
  | i, fuel + 1 =>
    match t.slots.getD (probeAt t.size home i) none with
    | none => none
    | some (kh, e) =>
      if kh = mh ∧ t.cmp m e = true then some e
      else findFrom μ α t m mh home (i + 1) fuel

/-- Modelled from the spec: hashtable_find (declared at
src/src/hashtable.h lines 188-199) computes the mixed hash of the match
key the same way as hashtable_add and walks the identical quadratic probe
sequence from the same home slot, with the same probe bound. -/
def hashtable_find (μ α : Type) (t : Hashtable μ α) (m : μ) : Option α :=
  findFrom μ α t m (mix32 (t.hashm m)) (mix32 (t.hashm m) % t.size) 0 t.size

/-- Entries currently stored in the table, in slot order. -/
def entriesOf (μ α : Type) (t : Hashtable μ α) : List α :=
  t.slots.filterMap (fun o => o.map Prod.snd)

/-- A sequence of add calls, folding hashtable_add over a list of
entries; an add rejected as full leaves the table unchanged. -/
def addList (μ α : Type) (t : Hashtable μ α) : List α → Hashtable μ α
  | [] => t
  | e :: es =>
    match hashtable_add μ α t e with
    | some t1 => addList μ α t1 es
    | none => addList μ α t es

/-- One table preserves another when it has the same size, hash and
comparator functions, the same slot-array length, and every occupied
slot of the first holds the identical stored pair in the second: this is
the shape in which the no-removal policy of the table is used, since a
sequence of add calls only ever fills empty slots. -/
def Preserved (μ α : Type) (t t1 : Hashtable μ α) : Prop :=
  t1.size = t.size ∧ t1.hash = t.hash ∧ t1.hashm = t.hashm ∧
  t1.cmp = t.cmp ∧ t1.slots.length = t.slots.length ∧
  ∀ s x, t.slots.getD s none = some x → t1.slots.getD s none = some x

/-- A small concrete table over Nat entries used to exercise the
hashtable theorems: four slots, identity hash, equality comparator. -/
def c8T0 : Hashtable Nat Nat :=
  hashtable_new Nat Nat 4 (fun n => n) (fun n => n) (fun m e => m == e)

/-- The concrete table obtained by adding the entry 5 to c8T0. -/
def c8T1 : Hashtable Nat Nat := (hashtable_add Nat Nat c8T0 5).getD c8T0

/-- A concrete Job sitting in the Basis-Copy state with decoded COPY
parameters, used to exercise the Basis-Copy theorems. -/
def copyJob : RsJob := { rs_patch_begin with statefn := .copy, param1 := 10, param2 := 4 }

/-- A concrete Job with a pending 2-byte tube copy, used to exercise the
tube-drain theorem. -/
def tubeJob : RsJob := { rs_patch_begin with statefn := .cmdbyte, tubeCopyLen := 2 }

/-- A concrete Job in the Parameter-Read state holding the descriptor of
opcode 68, a LITERAL command with one 8-byte length parameter. -/
def paramsJob : RsJob := { rs_patch_begin with statefn := .params, cmd := rs_prototab 68 }

/-- A concrete Job in the Parameter-Read state holding the descriptor of
opcode 69, a COPY command with two 1-byte parameters. -/
def copyParamsJob : RsJob := { rs_patch_begin with statefn := .params, cmd := rs_prototab 69 }

/-- A concrete Job in the Parameter-Read state holding the descriptor of
opcode 72, a COPY command with a 1-byte offset and an 8-byte length, used
to exercise an overflow confined to the second parameter. -/
def copyWideJob : RsJob := { rs_patch_begin with statefn := .params, cmd := rs_prototab 72 }

/-- A concrete Job in the Dispatch state holding a RESERVED descriptor,
as produced by a reserved opcode byte. -/
def reservedJob : RsJob :=
  { rs_patch_begin with statefn := .run, op := 200, cmd := rs_prototab 200 }

/- ------------------------------------------------------------------ -/
/- Theorems.                                                          -/
/- ------------------------------------------------------------------ -/

/-- C9: for every opcode byte read in the Command-Byte state, the
descriptor is looked up in the Command Table; when its len_1 is 0, param1
is set to the immediate value of the descriptor and the machine goes
directly to Dispatch, and otherwise it goes to Parameter-Read. -/
theorem c9_cmdbyte_lookup (job : RsJob) (b : Nat) (rest : List Nat) :
    (rs_patch_s_cmdbyte job (b :: rest)).1 = .running ∧
    (rs_patch_s_cmdbyte job (b :: rest)).2.2 = rest ∧
    (rs_patch_s_cmdbyte job (b :: rest)).2.1.op = b ∧
    (rs_patch_s_cmdbyte job (b :: rest)).2.1.cmd = rs_prototab b ∧
    ((rs_prototab b).len_1 = 0 →
      (rs_patch_s_cmdbyte job (b :: rest)).2.1.statefn = .run ∧
      (rs_patch_s_cmdbyte job (b :: rest)).2.1.param1 = (rs_prototab b).immediate) ∧
    ((rs_prototab b).len_1 ≠ 0 →
      (rs_patch_s_cmdbyte job (b :: rest)).2.1.statefn = .params) := by
  by_cases h : (rs_prototab b).len_1 = 0 <;>
    simp [rs_patch_s_cmdbyte, h]

/-- Witness for C9: opcode 3 is an immediate LITERAL (len_1 = 0) going
straight to Dispatch with param1 = 3; opcode 65 has a length parameter
and goes to Parameter-Read. -/
theorem c9_cmdbyte_lookup_witness :
    (rs_patch_s_cmdbyte rs_patch_begin [3, 9]).2.1.statefn = .run ∧
    (rs_patch_s_cmdbyte rs_patch_begin [3, 9]).2.1.param1 = (rs_prototab 3).immediate ∧
    (rs_patch_s_cmdbyte rs_patch_begin [65, 9]).2.1.statefn = .params :=
  ⟨((c9_cmdbyte_lookup rs_patch_begin 3 [9]).2.2.2.2.1 (by decide)).1,
   ((c9_cmdbyte_lookup rs_patch_begin 3 [9]).2.2.2.2.1 (by decide)).2,
   (c9_cmdbyte_lookup rs_patch_begin 65 [9]).2.2.2.2.2 (by decide)⟩

/-- C4: the Dispatch state fails with corrupt on any descriptor kind
other than LITERAL, COPY and END, reporting the offending opcode value as
the diagnostic, and the driver then stops with no output produced after
that point; on kind END it is terminal done. -/
theorem c4_run_dispatch (nb fuel : Nat) (job : RsJob) (input : List Nat) :
    (job.cmd.kind = .reserved →
      rs_patch_s_run job = (.corrupt, job, some job.op) ∧
      (job.statefn = .run → job.tubeCopyLen = 0 → 1 ≤ fuel →
        (rs_patch_drive nb fuel job input).result = .corrupt ∧
        (rs_patch_drive nb fuel job input).out = [] ∧
        (rs_patch_drive nb fuel job input).diag = some job.op)) ∧
    (job.cmd.kind = .end_ → rs_patch_s_run job = (.done, job, none)) := by
  constructor
  · intro hk
    constructor
    · simp [rs_patch_s_run, hk]
    · intro hs ht hf
      obtain ⟨k, rfl⟩ : ∃ k, fuel = k + 1 := ⟨fuel - 1, by omega⟩
      simp [rs_patch_drive, rs_job_iter, ht, hs, rs_patch_s_run, hk]
  · intro hk
    simp [rs_patch_s_run, hk]

/-- Witness for C4: a Job holding the reserved opcode 200 dispatches to
corrupt with diagnostic 200, and the driver produces no output. -/
theorem c4_run_dispatch_witness :
    rs_patch_s_run reservedJob = (.corrupt, reservedJob, some 200) ∧
    (rs_patch_drive 64 5 reservedJob [1, 2, 3]).result = .corrupt ∧
    (rs_patch_drive 64 5 reservedJob [1, 2, 3]).out = [] :=
  ⟨((c4_run_dispatch 64 5 reservedJob [1, 2, 3]).1 (by decide)).1,
   (((c4_run_dispatch 64 5 reservedJob [1, 2, 3]).1 (by decide)).2
      (by decide) (by decide) (by decide)).1,
   (((c4_run_dispatch 64 5 reservedJob [1, 2, 3]).1 (by decide)).2
      (by decide) (by decide) (by decide)).2.1⟩

/-- C10: executing one step of a Job in the Basis-Copy state changes
nothing but the state tag, which returns to Command-Byte with status
running: no output bytes, no basis-read callback invocation, and the
statistics and checksum accumulator are untouched. -/
theorem c10_copy_frame (nb : Nat) (job : RsJob) (input : List Nat)
    (hs : job.statefn = .copy) (ht : job.tubeCopyLen = 0) :
    rs_patch_s_copy job = (.running, { job with statefn := .cmdbyte }) ∧
    rs_job_iter nb job input =
      ⟨.running, { job with statefn := .cmdbyte }, input, [], none⟩ := by
  constructor
  · rfl
  · simp [rs_job_iter, ht, hs, rs_patch_s_copy]

/-- Witness for C10: a concrete Job in the Basis-Copy state with decoded
parameters steps back to Command-Byte leaving input, output, statistics,
checksum feed and basis-read log untouched. -/
theorem c10_copy_frame_witness :
    rs_job_iter 64 copyJob [7, 8] =
      ⟨.running, { copyJob with statefn := .cmdbyte }, [7, 8], [], none⟩ :=
  (c10_copy_frame 64 copyJob [7, 8] (by decide) (by decide)).2

/-- C1 evaluation at the failing input: the source comments out the
actual copy in rs_patch_s_copy, so the basis-copy concrete scenario
(magic, COPY with offset 10 and length 4, END) decodes to done with empty
output, never invoking the basis-read callback, instead of producing the
4 basis bytes the claim requires. -/
theorem c1_copy_scenario_stub :
    (rs_patch_drive 64 10 rs_patch_begin copyScenario).result = .done ∧
    (rs_patch_drive 64 10 rs_patch_begin copyScenario).out = [] ∧
    (rs_patch_drive 64 10 rs_patch_begin copyScenario).job.basisReads = [] ∧
    (rs_patch_drive 64 10 rs_patch_begin copyScenario).out ≠
      [0xDE, 0xAD, 0xBE, 0xEF] := by
  decide

/-- C3: the Header state reads exactly 4 bytes big-endian before any
command byte is interpreted; a value different from the delta magic
constant makes the whole decode terminate with badMagic and no output
ever produced, and the magic value moves the machine to Command-Byte
having consumed exactly the 4 header bytes. -/
theorem c3_header_magic (nb fuel : Nat) (input : List Nat)
    (h4 : 4 ≤ input.length) :
    (be (input.take 4) ≠ RS_DELTA_MAGIC → 1 ≤ fuel →
      (rs_patch_drive nb fuel rs_patch_begin input).result = .badMagic ∧
      (rs_patch_drive nb fuel rs_patch_begin input).out = []) ∧
    (be (input.take 4) = RS_DELTA_MAGIC →
      rs_patch_s_header rs_patch_begin input =
        (.running, { rs_patch_begin with statefn := .cmdbyte }, input.drop 4)) := by
  have hlt : ¬input.length < 4 := by omega
  constructor
  · intro hm hf
    obtain ⟨k, rfl⟩ : ∃ k, fuel = k + 1 := ⟨fuel - 1, by omega⟩
    have hiter : rs_job_iter nb rs_patch_begin input =
        ⟨.badMagic, rs_patch_begin, input.drop 4, [], none⟩ := by
      have htube : rs_patch_begin.tubeCopyLen = 0 := rfl
      have hstate : rs_patch_begin.statefn = .header := rfl
      simp [rs_job_iter, htube, hstate, rs_patch_s_header, hlt, hm]
    simp [rs_patch_drive, hiter]
  · intro hm
    simp [rs_patch_s_header, hlt, hm]

/-- Witness for C3: a stream starting with four zero bytes yields
badMagic and empty output, and the genuine magic bytes move the machine
to Command-Byte. -/
theorem c3_header_magic_witness :
    (rs_patch_drive 64 3 rs_patch_begin [0, 0, 0, 0, 5]).result = .badMagic ∧
    (rs_patch_drive 64 3 rs_patch_begin [0, 0, 0, 0, 5]).out = [] ∧
    rs_patch_s_header rs_patch_begin [0x72, 0x73, 0x02, 0x36, 3] =
      (.running, { rs_patch_begin with statefn := .cmdbyte }, [3]) :=
  ⟨((c3_header_magic 64 3 [0, 0, 0, 0, 5] (by decide)).1 (by decide) (by decide)).1,
   ((c3_header_magic 64 3 [0, 0, 0, 0, 5] (by decide)).1 (by decide) (by decide)).2,
   (c3_header_magic 64 3 [0x72, 0x73, 0x02, 0x36, 3] (by decide)).2 (by decide)⟩

/-- C2: the Literal-Copy state counts one literal command and param1
literal bytes, queues param1 bytes of verbatim pass-through copy, and
returns to Command-Byte; the queued bytes are moved unchanged from the
input cursor to the output cursor; and the literal concrete scenario
decodes to done with output ABC and the matching statistics. -/
theorem c2_literal (nb : Nat) (job : RsJob) (input : List Nat) :
    rs_patch_s_literal job =
      (.running,
       { job with
          statsLitCmds := job.statsLitCmds + 1,
          statsLitBytes := job.statsLitBytes + job.param1,
          tubeCopyLen := job.tubeCopyLen + job.param1,
          statefn := .cmdbyte }) ∧
    (job.tubeCopyLen ≠ 0 → job.tubeCopyLen ≤ input.length →
      rs_job_iter nb job input =
        ⟨.running, { job with tubeCopyLen := 0 }, input.drop job.tubeCopyLen,
         input.take job.tubeCopyLen, none⟩) ∧
    ((rs_patch_drive 64 10 rs_patch_begin litScenario).result = .done ∧
     (rs_patch_drive 64 10 rs_patch_begin litScenario).out = [0x41, 0x42, 0x43] ∧
     (rs_patch_drive 64 10 rs_patch_begin litScenario).job.statsLitCmds = 1 ∧
     (rs_patch_drive 64 10 rs_patch_begin litScenario).job.statsLitBytes = 3) := by
  refine ⟨rfl, ?_, by decide⟩
  intro h0 hle
  have hmin : min job.tubeCopyLen input.length = job.tubeCopyLen :=
    Nat.min_eq_left hle
  simp [rs_job_iter, h0, hmin]

/-- Witness for C2: a Job with a pending 2-byte tube copy over the input
7, 8, 9 emits exactly the bytes 7, 8 and leaves 9 unread. -/
theorem c2_literal_witness :
    rs_job_iter 64 tubeJob [7, 8, 9] =
      ⟨.running, { tubeJob with tubeCopyLen := 0 }, [9], [7, 8], none⟩ :=
  (c2_literal 64 tubeJob [7, 8, 9]).2.1 (by decide) (by decide)

/-- C5: the Parameter-Read state needs len_1 + len_2 contiguous bytes;
when they are not available it reports blocked_in with the Job and the
input untouched, so the resumed invocation retries the identical state;
once available it decodes param1 (and param2 when len_2 is nonzero) as
big-endian integers and moves to Dispatch, consuming exactly those
bytes. -/
theorem c5_params (nb : Nat) (job : RsJob) (input : List Nat)
    (h1 : job.cmd.len_1 ≠ 0) :
    (input.length < job.cmd.len_1 + job.cmd.len_2 →
      rs_patch_s_params nb job input = (.blocked_in, job, input)) ∧
    (job.cmd.len_1 + job.cmd.len_2 ≤ input.length →
     be (input.take job.cmd.len_1) < 2 ^ nb →
     be ((input.drop job.cmd.len_1).take job.cmd.len_2) < 2 ^ nb →
      rs_patch_s_params nb job input =
        (.running,
         { job with
            param1 := be (input.take job.cmd.len_1),
            param2 := if job.cmd.len_2 = 0 then job.param2
                      else be ((input.drop job.cmd.len_1).take job.cmd.len_2),
            statefn := .run },
         input.drop (job.cmd.len_1 + job.cmd.len_2))) := by
  have hlen0 : ¬(job.cmd.len_1 + job.cmd.len_2 = 0) := by omega
  constructor
  · intro hlt
    simp [rs_patch_s_params, hlen0, hlt]
  · intro hle hov1 hov2
    have hnlt : ¬(input.length < job.cmd.len_1 + job.cmd.len_2) := by omega
    have hn1 : ¬(input.length < job.cmd.len_1) := by omega
    have hd1 : ¬(input.length - job.cmd.len_1 < job.cmd.len_2) := by omega
    by_cases h2 : job.cmd.len_2 = 0
    · simp [rs_patch_s_params, hlen0, hnlt, rs_suck_netint, hn1, h1,
            Nat.not_le.mpr hov1, h2]
    · simp [rs_patch_s_params, hlen0, hnlt, rs_suck_netint, hn1, hd1, h1,
            Nat.not_le.mpr hov1, Nat.not_le.mpr hov2, h2, List.drop_drop]

/-- Witness for C5: the COPY descriptor of opcode 69 needs 2 bytes; with
only 1 byte the state suspends untouched, and with bytes 10, 4, 9 it
decodes param1 = 10 and param2 = 4, consuming exactly two bytes. -/
theorem c5_params_witness :
    rs_patch_s_params 64 copyParamsJob [10] = (.blocked_in, copyParamsJob, [10]) ∧
    rs_patch_s_params 64 copyParamsJob [10, 4, 9] =
      (.running,
       { copyParamsJob with
          param1 := be ([10, 4, 9].take (rs_prototab 69).len_1),
          param2 := if (rs_prototab 69).len_2 = 0 then copyParamsJob.param2
                    else be (([10, 4, 9].drop (rs_prototab 69).len_1).take
                               (rs_prototab 69).len_2),
          statefn := .run },
       [10, 4, 9].drop ((rs_prototab 69).len_1 + (rs_prototab 69).len_2)) :=
  ⟨(c5_params 64 copyParamsJob [10] (by decide)).1 (by decide),
   (c5_params 64 copyParamsJob [10, 4, 9] (by decide)).2
     (by decide) (by decide) (by decide)⟩

/-- C6 evaluation at the failing inputs: with a 32-bit native range, a
first parameter decoding to 2 to the power 56 (opcode 68, one 8-byte
length) and a stream where only the second parameter overflows (opcode
72, 1-byte offset 5 then an 8-byte length of 2 to the power 56) both make
the spec-modelled rs_suck_netint report the overflow, but patch.c asserts
that result away, so the Parameter-Read state ends in the assert abort
(internalError) and never returns the terminal paramOverflow status the
claim requires. -/
theorem c6_overflow_asserted :
    (rs_patch_s_params 32 paramsJob [1, 0, 0, 0, 0, 0, 0, 0]).1 = .internalError ∧
    (rs_patch_s_params 32 paramsJob [1, 0, 0, 0, 0, 0, 0, 0]).1 ≠ .paramOverflow ∧
    (rs_patch_s_params 32 copyWideJob [5, 1, 0, 0, 0, 0, 0, 0, 0]).1 = .internalError ∧
    (rs_patch_s_params 32 copyWideJob [5, 1, 0, 0, 0, 0, 0, 0, 0]).1 ≠ .paramOverflow := by
  decide

/-- Each state function of patch.c leaves the checksum-feed list of the
Job unchanged: the source only initializes the MD4 accumulator in
rs_patch_begin and never feeds output bytes into it. -/
theorem md4_iter_invariant (nb : Nat) (job : RsJob) (input : List Nat) :
    (rs_job_iter nb job input).job.md4Fed = job.md4Fed := by
  unfold rs_job_iter
  dsimp only
  split
  · split <;> rfl
  · split <;>
      simp only [rs_patch_s_header, rs_patch_s_cmdbyte, rs_patch_s_params,
                 rs_suck_netint, rs_patch_s_run, rs_patch_s_literal,
                 rs_patch_s_copy] <;>
      (repeat' split) <;> rfl

/-- The driver loop never changes the checksum-feed list of the Job,
whatever fuel, Job and input it is given. -/
theorem md4_drive_invariant (nb fuel : Nat) (job : RsJob) (input : List Nat) :
    (rs_patch_drive nb fuel job input).job.md4Fed = job.md4Fed := by
  induction fuel generalizing job input with
  | zero => rfl
  | succ f ih =>
    simp only [rs_patch_drive]
    split
    · rw [ih]
      exact md4_iter_invariant nb job input
    · exact md4_iter_invariant nb job input

/-- C7 counterexample: decoding the literal scenario writes the three
bytes of ABC to the output cursor, yet the checksum accumulator of the
Job has been fed nothing, so the accumulator does not reflect the output
produced so far. -/
theorem c7_md4_counterexample :
    (rs_patch_drive 64 10 rs_patch_begin litScenario).out = [0x41, 0x42, 0x43] ∧
    (rs_patch_drive 64 10 rs_patch_begin litScenario).job.md4Fed = [] ∧
    (rs_patch_drive 64 10 rs_patch_begin litScenario).job.md4Fed ≠
      (rs_patch_drive 64 10 rs_patch_begin litScenario).out := by
  decide

/-- C7 amended: the Job carries a checksum accumulator that
rs_patch_begin initializes to having been fed nothing, and no step of the
machine ever feeds an output byte into it, whatever fuel, Job and input
the driver is given (the source marks the feeding as future work). -/
theorem c7_md4_amended :
    rs_patch_begin.md4Fed = [] ∧
    ∀ (nb fuel : Nat) (job : RsJob) (input : List Nat),
      (rs_patch_drive nb fuel job input).job.md4Fed = job.md4Fed :=
  ⟨rfl, fun nb fuel job input => md4_drive_invariant nb fuel job input⟩


theorem slot_getD_mem {α : Type} (l : List (Option (Nat × α))) (s : Nat)
    (x : Nat × α) (h : l.getD s none = some x) : some x ∈ l := by
  rw [List.getD_eq_getElem?_getD] at h
  cases hq : l[s]? with
  | none => rw [hq] at h; simp at h
  | some o =>
    rw [hq] at h
    simp only [Option.getD_some] at h
    subst h
    exact List.getElem?_mem hq

theorem findFrom_sound {μ α : Type} (t : Hashtable μ α) (m : μ) (mh home : Nat) :
    ∀ (fuel i : Nat) (e : α), findFrom μ α t m mh home i fuel = some e →
      t.cmp m e = true ∧ e ∈ entriesOf μ α t := by
  intro fuel
  induction fuel with
  | zero => intro i e h; simp [findFrom] at h
  | succ f ih =>
    intro i e h
    simp only [findFrom] at h
    cases hx : t.slots.getD (probeAt t.size home i) none with
    | none => rw [hx] at h; simp at h
    | some x =>
      obtain ⟨kh, e0⟩ := x
      rw [hx] at h
      dsimp only at h
      by_cases hc : kh = mh ∧ t.cmp m e0 = true
      · rw [if_pos hc] at h
        obtain rfl : e0 = e := Option.some.inj h
        refine ⟨hc.2, ?_⟩
        exact List.mem_filterMap.mpr ⟨some (kh, e0), slot_getD_mem _ _ _ hx, rfl⟩
      · rw [if_neg hc] at h
        exact ih (i + 1) e h

theorem hashtable_find_sound {μ α : Type} (t : Hashtable μ α) (m : μ) (e : α)
    (h : hashtable_find μ α t m = some e) :
    t.cmp m e = true ∧ e ∈ entriesOf μ α t :=
  findFrom_sound t m _ _ t.size 0 e h

theorem hashtable_find_no_match {μ α : Type} (t : Hashtable μ α) (m : μ)
    (hall : ∀ e ∈ entriesOf μ α t, t.cmp m e = false) :
    hashtable_find μ α t m = none := by
  cases hq : hashtable_find μ α t m with
  | none => rfl
  | some e =>
    obtain ⟨hc, hm⟩ := hashtable_find_sound t m e hq
    rw [hall e hm] at hc
    cases hc


theorem findFrom_hits {μ α : Type} (t : Hashtable μ α) (m : μ) (mh home : Nat) :
    ∀ (fuel j i : Nat), j < fuel →
      (∀ k, k < j → t.slots.getD (probeAt t.size home (i + k)) none ≠ none) →
      (∃ e, t.slots.getD (probeAt t.size home (i + j)) none = some (mh, e) ∧
            t.cmp m e = true) →
      ∃ e1, findFrom μ α t m mh home i fuel = some e1 ∧ t.cmp m e1 = true := by
  intro fuel
  induction fuel with
  | zero => intro j i hj _ _; exact absurd hj (Nat.not_lt_zero j)
  | succ f ih =>
    intro j i hj hocc hhit
    cases j with
    | zero =>
      obtain ⟨e, he, hc⟩ := hhit
      rw [Nat.add_zero] at he
      refine ⟨e, ?_, hc⟩
      simp only [findFrom]
      rw [he]
      dsimp only
      rw [if_pos ⟨rfl, hc⟩]
    | succ j1 =>
      have h0 := hocc 0 (Nat.succ_pos j1)
      rw [Nat.add_zero] at h0
      cases hx : t.slots.getD (probeAt t.size home i) none with
      | none => exact absurd hx h0
      | some x =>
        obtain ⟨kh, e0⟩ := x
        simp only [findFrom]
        rw [hx]
        dsimp only
        by_cases hc : kh = mh ∧ t.cmp m e0 = true
        · rw [if_pos hc]
          exact ⟨e0, rfl, hc.2⟩
        · rw [if_neg hc]
          apply ih j1 (i + 1)
          · omega
          · intro k hk
            have hk1 := hocc (k + 1) (by omega)
            have harith : i + (k + 1) = i + 1 + k := by omega
            rwa [harith] at hk1
          · obtain ⟨e, he, hce⟩ := hhit
            have harith : i + (j1 + 1) = i + 1 + j1 := by omega
            rw [harith] at he
            exact ⟨e, he, hce⟩

theorem addFrom_places {μ α : Type} (t : Hashtable μ α) (e : α) (mh home : Nat) :
    ∀ (fuel i : Nat) (t1 : Hashtable μ α),
      addFrom μ α t e mh home i fuel = some t1 →
      ∃ j, j < fuel ∧
        (∀ k, k < j → t.slots.getD (probeAt t.size home (i + k)) none ≠ none) ∧
        t.slots.getD (probeAt t.size home (i + j)) none = none ∧
        t1.size = t.size ∧ t1.hash = t.hash ∧ t1.hashm = t.hashm ∧
        t1.cmp = t.cmp ∧
        t1.slots = t.slots.set (probeAt t.size home (i + j)) (some (mh, e)) := by
  intro fuel
  induction fuel with
  | zero => intro i t1 h; simp [addFrom] at h
  | succ f ih =>
    intro i t1 h
    simp only [addFrom] at h
    cases hx : t.slots.getD (probeAt t.size home i) none with
    | none =>
      rw [hx] at h
      dsimp only at h
      obtain rfl := (Option.some.inj h).symm
      refine ⟨0, Nat.succ_pos f, ?_, ?_, rfl, rfl, rfl, rfl, ?_⟩
      · intro k hk; exact absurd hk (Nat.not_lt_zero k)
      · rw [Nat.add_zero]; exact hx
      · rw [Nat.add_zero]; rfl
    | some x =>
      rw [hx] at h
      dsimp only at h
      obtain ⟨j1, hj1, hocc, hnone, hsz, hh, hhm, hcm, hsl⟩ := ih (i + 1) t1 h
      refine ⟨j1 + 1, by omega, ?_, ?_, hsz, hh, hhm, hcm, ?_⟩
      · intro k hk
        cases k with
        | zero => rw [Nat.add_zero]; rw [hx]; exact fun hq => Option.noConfusion hq
        | succ k1 =>
          have harith : i + (k1 + 1) = i + 1 + k1 := by omega
          rw [harith]
          exact hocc k1 (by omega)
      · have harith : i + (j1 + 1) = i + 1 + j1 := by omega
        rw [harith]
        exact hnone
      · have harith : i + (j1 + 1) = i + 1 + j1 := by omega
        rw [harith]
        exact hsl


theorem preserved_refl {μ α : Type} (t : Hashtable μ α) : Preserved μ α t t :=
  ⟨rfl, rfl, rfl, rfl, rfl, fun _ _ h => h⟩

theorem preserved_trans {μ α : Type} (a b c : Hashtable μ α)
    (h1 : Preserved μ α a b) (h2 : Preserved μ α b c) : Preserved μ α a c := by
  obtain ⟨s1, g1, m1, c1, l1, p1⟩ := h1
  obtain ⟨s2, g2, m2, c2, l2, p2⟩ := h2
  exact ⟨s2.trans s1, g2.trans g1, m2.trans m1, c2.trans c1, l2.trans l1,
         fun s x h => p2 s x (p1 s x h)⟩

theorem add_preserves {μ α : Type} (t t1 : Hashtable μ α) (e : α)
    (h : hashtable_add μ α t e = some t1) : Preserved μ α t t1 := by
  obtain ⟨j, hj, hocc, hnone, hsz, hh, hhm, hcm, hsl⟩ :=
    addFrom_places t e (mix32 (t.hash e)) (mix32 (t.hash e) % t.size) t.size 0 t1 h
  refine ⟨hsz, hh, hhm, hcm, ?_, ?_⟩
  · rw [hsl, List.length_set]
  · intro s x hx
    rw [hsl]
    by_cases hsp : s = probeAt t.size (mix32 (t.hash e) % t.size) (0 + j)
    · rw [hsp, hnone] at hx
      exact Option.noConfusion hx
    · rw [List.getD_eq_getElem?_getD,
          List.getElem?_set_ne (fun hq => hsp hq.symm),
          ← List.getD_eq_getElem?_getD]
      exact hx

theorem addList_preserves {μ α : Type} (es : List α) :
    ∀ t : Hashtable μ α, Preserved μ α t (addList μ α t es) := by
  induction es with
  | nil => intro t; exact preserved_refl t
  | cons e es ih =>
    intro t
    simp only [addList]
    cases hx : hashtable_add μ α t e with
    | none => exact ih t
    | some t1 => exact preserved_trans t t1 _ (add_preserves t t1 e hx) (ih t1)


theorem find_after_add {μ α : Type} (t : Hashtable μ α) (e : α) (m : μ)
    (t1 : Hashtable μ α) (es : List α)
    (hwf : t.slots.length = t.size) (hpos : 0 < t.size)
    (hadd : hashtable_add μ α t e = some t1)
    (hh : mix32 ((addList μ α t1 es).hashm m) = mix32 (t.hash e))
    (hc : (addList μ α t1 es).cmp m e = true) :
    ∃ e1, hashtable_find μ α (addList μ α t1 es) m = some e1 ∧
          (addList μ α t1 es).cmp m e1 = true := by
  obtain ⟨j, hj, hocc, hnone, hsz1, hh1, hhm1, hcm1, hsl1⟩ :=
    addFrom_places t e (mix32 (t.hash e)) (mix32 (t.hash e) % t.size) t.size 0 t1 hadd
  have hpr1 : Preserved μ α t t1 := add_preserves t t1 e hadd
  obtain ⟨hsz2, hh2, hhm2, hcm2, hlen2, hpres2⟩ := addList_preserves es t1
  have hsz : (addList μ α t1 es).size = t.size := hsz2.trans hsz1
  have hp_lt : probeAt t.size (mix32 (t.hash e) % t.size) (0 + j) < t.slots.length := by
    rw [hwf]
    exact Nat.mod_lt _ hpos
  have ht1p : t1.slots.getD
      (probeAt t.size (mix32 (t.hash e) % t.size) (0 + j)) none =
      some (mix32 (t.hash e), e) := by
    rw [hsl1, List.getD_eq_getElem?_getD, List.getElem?_set_self hp_lt]
    rfl
  have ht2p := hpres2 _ _ ht1p
  have ht2occ : ∀ k, k < j →
      (addList μ α t1 es).slots.getD
        (probeAt t.size (mix32 (t.hash e) % t.size) (0 + k)) none ≠ none := by
    intro k hk
    have h1 := hocc k hk
    cases hxx : t.slots.getD (probeAt t.size (mix32 (t.hash e) % t.size) (0 + k)) none with
    | none => exact absurd hxx h1
    | some x =>
      have hstep := hpres2 _ _ (hpr1.2.2.2.2.2 _ _ hxx)
      rw [hstep]
      exact fun hq => Option.noConfusion hq
  unfold hashtable_find
  rw [hh, hsz]
  apply findFrom_hits (addList μ α t1 es) m (mix32 (t.hash e))
    (mix32 (t.hash e) % t.size) t.size j 0 hj
  · intro k hk
    rw [hsz]
    exact ht2occ k hk
  · refine ⟨e, ?_, hc⟩
    rw [hsz]
    exact ht2p


theorem c8_hashtable_find_contract (μ α : Type) (t : Hashtable μ α) (m : μ) :
    (∀ e, hashtable_find μ α t m = some e →
       t.cmp m e = true ∧ e ∈ entriesOf μ α t) ∧
    ((∀ e ∈ entriesOf μ α t, t.cmp m e = false) →
       hashtable_find μ α t m = none) ∧
    (∀ (e : α) (t1 : Hashtable μ α) (es : List α),
      t.slots.length = t.size → 0 < t.size →
      hashtable_add μ α t e = some t1 →
      mix32 ((addList μ α t1 es).hashm m) = mix32 (t.hash e) →
      (addList μ α t1 es).cmp m e = true →
      ∃ e1, hashtable_find μ α (addList μ α t1 es) m = some e1 ∧
            (addList μ α t1 es).cmp m e1 = true) :=
  ⟨fun e h => hashtable_find_sound t m e h,
   hashtable_find_no_match t m,
   fun e t1 es hwf hpos hadd hh hc =>
     find_after_add t e m t1 es hwf hpos hadd hh hc⟩

theorem c8_hashtable_find_contract_witness :
    ∃ e1, hashtable_find Nat Nat c8T1 5 = some e1 ∧ c8T1.cmp 5 e1 = true := by
  have h := (c8_hashtable_find_contract Nat Nat c8T0 5).2.2 5 c8T1 []
    (by rfl) (by decide) (by rfl) (by rfl) (by rfl)
  exact h

end Librsync
